import Mathlib

/-!
# Verification of `PaddleNLP/examples/dialogue/lic2021/finetune.py`

A shallow embedding of the orchestration script `finetune.py` (checkpoint
I/O, training loop, evaluation loop) together with theorems settling the
specification claims about it.

Modelling conventions:
* Tensors are abstracted as lists of integers; `tgt_label.shape[0]` (the
  per-batch target-token count) is the length of the `tgt_label` list.
* Scalar losses, learning rates and wall-clock durations are rationals.
* The external framework (model forward, `F.cross_entropy`, `AdamW`,
  `NoamDecay`, `paddle.exp` / `math.exp`, `time.time`) is abstracted as a
  structure of oracle functions indexed by the global step: any concrete run
  of the real program induces such oracles.  The script's control flow — what
  happens, in what order, with which reported numbers — is translated
  faithfully from the source.
* Python exceptions (`ZeroDivisionError` on `x / 0`, a failing
  `paddle.load`) become `Except.error`: an uncaught exception aborts the run.
* Side effects (prints, file writes, model mode switches, the per-batch
  forward/backward/step calls) are recorded as an event trace `List Ev` so
  that ordering and cadence claims can be stated about it.
-/

/-- A batch yielded by the dialogue data loader: the 6-tuple unpacked at
`finetune.py` lines 101 and 136.  Tensors are lists of integers;
the target-token count `tgt_label.shape[0]` is `tgt_label.length`. -/
structure Batch where
  token_ids : List Int
  type_ids : List Int
  pos_ids : List Int
  generation_mask : List Int
  tgt_label : List Int
  tgt_pos : List Int
deriving DecidableEq, Repr

/-- Reduction mode of `F.cross_entropy`: the training loop (line 105) uses the
default `'mean'`, the evaluation loop (line 139) passes `reduction='sum'`. -/
inductive Reduction where
  | mean
  | sum
deriving DecidableEq, Repr

/-- The data printed by one training log line (line 115-118): step index,
loss, perplexity, current learning rate, seconds per step. -/
structure LogRec where
  step : Nat
  loss : ℚ
  ppl : ℚ
  lr : ℚ
  secsPerStep : ℚ
deriving DecidableEq, Repr

/-- The data printed by the evaluation summary (line 147): mean loss and
perplexity.  (The also-printed seconds-per-step figure is wall-clock time,
abstracted away; no claim concerns it.) -/
structure EvalRec where
  loss : ℚ
  ppl : ℚ
deriving DecidableEq, Repr

/-- Observable events of a run, in program order. -/
inductive Ev where
  /-- A model forward pass on the 5-tuple
  `(token_ids, type_ids, pos_ids, generation_mask, tgt_pos)` (lines 103-104, 138). -/
  | forward (inputs : List Int × List Int × List Int × List Int × List Int)
  /-- An `F.cross_entropy(logits, target)` call with the given reduction
  (lines 105, 139). -/
  | crossEntropy (target : List Int) (red : Reduction)
  /-- `loss.backward()` (line 106). -/
  | backward
  /-- `optimizer.step()` (line 107). -/
  | optStep
  /-- `lr_scheduler.step()` (line 108). -/
  | lrStep
  /-- `optimizer.clear_grad()` (line 109). -/
  | clearGrad
  /-- The training log print (lines 115-118). -/
  | logLine (r : LogRec)
  /-- The per-epoch header print (line 97). -/
  | epochHeader (n : Nat)
  /-- `model.eval()` (line 129). -/
  | modelEval
  /-- `model.train()` (line 148). -/
  | modelTrain
  /-- The evaluation summary print (line 147). -/
  | evalReport (r : EvalRec)
  /-- A `paddle.save` to the given path (lines 29-30). -/
  | saveFile (path : String)
deriving DecidableEq, Repr

/-- The model as the evaluation loop sees it: for each batch, the scalar
value of `F.cross_entropy(model(...), tgt_label, reduction='sum')`
(lines 138-139), abstracted as an oracle. -/
structure EvalModel where
  sumLoss : Batch → ℚ

/-- The events of one iteration of the evaluation loop body (lines 136-142):
a forward pass on the five input tensors, then a sum-reduced cross-entropy
against the target labels. -/
def evalBatchEvents (b : Batch) : List Ev :=
  [Ev.forward (b.token_ids, b.type_ids, b.pos_ids, b.generation_mask, b.tgt_pos),
   Ev.crossEntropy b.tgt_label Reduction.sum]

/-- `total_loss` accumulated by the evaluation loop (lines 131, 141). -/
def totalLoss (m : EvalModel) (stream : List Batch) : ℚ :=
  stream.foldl (fun acc b => acc + m.sumLoss b) 0

/-- `total_tokens` accumulated by the evaluation loop (lines 130, 142):
the sum of `tgt_label.shape[0]` over the stream. -/
def totalTokens (stream : List Batch) : Nat :=
  stream.foldl (fun acc b => acc + b.tgt_label.length) 0

/-- The `evaluation` function (lines 126-148).  `fexp` abstracts the scalar
exponential `math.exp` (line 145).  The loop accumulates the sum-reduced
loss and the target-token count over the stream; `avg_loss = total_loss /
total_tokens` (line 144) raises `ZeroDivisionError` in Python when
`total_tokens == 0`, which aborts the run, hence the `Except.error` branch.
Events: `model.eval()`, one forward + sum-cross-entropy per batch in stream
order, the summary print, `model.train()`. -/
def evaluation (fexp : ℚ → ℚ) (m : EvalModel) (data_loader : List Batch) :
    Except String (EvalRec × List Ev) :=
  let total_loss := totalLoss m data_loader
  let total_tokens := totalTokens data_loader
  if total_tokens = 0 then
    Except.error "ZeroDivisionError"
  else
    let avg_loss := total_loss / (total_tokens : ℚ)
    let r : EvalRec := ⟨avg_loss, fexp avg_loss⟩
    Except.ok (r, Ev.modelEval :: data_loader.flatMap evalBatchEvents
                    ++ [Ev.evalReport r, Ev.modelTrain])

/-- The summary record `evaluation` reports on a non-empty-token stream. -/
def evalRec (fexp : ℚ → ℚ) (m : EvalModel) (stream : List Batch) : EvalRec :=
  let a := totalLoss m stream / (totalTokens stream : ℚ)
  ⟨a, fexp a⟩

/-- The event trace of a successful `evaluation` run. -/
def evalEvsOk (fexp : ℚ → ℚ) (m : EvalModel) (stream : List Batch) : List Ev :=
  Ev.modelEval :: stream.flatMap evalBatchEvents
    ++ [Ev.evalReport (evalRec fexp m stream), Ev.modelTrain]

/-!  ## Checkpoint I/O (`load_ckpt`, lines 17-23; `save_ckpt`, lines 26-30) -/

/-- A serialized state dict: a mapping from parameter/slot name to a numeric
value (numeric arrays abstracted as integers). -/
abbrev StateDict := List (String × Int)

/-- Content of a file on disk: either a well-formed serialized state dict or
a malformed blob that `paddle.load` fails to deserialize. -/
inductive Blob where
  | valid (sd : StateDict)
  | malformed
deriving DecidableEq, Repr

/-- The file system, as a path-to-content association list; the most recent
write for a path shadows older entries. -/
abbrev FS := List (String × Blob)

/-- A `paddle.save(obj, path)` call (lines 29-30). -/
def fsWrite (fs : FS) (path : String) (b : Blob) : FS :=
  (path, b) :: fs

/-- A `paddle.load(path)` call (lines 18, 21): raises (here `Except.error`)
when the file is absent or malformed. -/
def paddleLoad (fs : FS) (path : String) : Except String StateDict :=
  match fs.lookup path with
  | some (Blob.valid sd) => Except.ok sd
  | some Blob.malformed => Except.error ("malformed file: " ++ path)
  | none => Except.error ("no such file: " ++ path)

/-- The model's parameter state (what `model.state_dict()` /
`model.set_state_dict` expose). -/
structure ModelState where
  params : StateDict
deriving DecidableEq, Repr

/-- The optimizer's state (what `optimizer.state_dict()` /
`optimizer.set_state_dict` expose). -/
structure OptState where
  slots : StateDict
deriving DecidableEq, Repr

/-- `load_ckpt(init_from_ckpt, model, optimizer=None)` (lines 17-23): loads
`init_from_ckpt + '.pdparams'` and applies it to the model; if and only if
an optimizer is supplied, also loads `init_from_ckpt + '.pdopt'` and applies
it.  Any `paddle.load` failure propagates (fatal, no fallback).  Returns the
updated model, the updated optimizer (when supplied), and the list of file
paths read, in read order. -/
def load_ckpt (fs : FS) (init_from_ckpt : String) (model : ModelState)
    (optimizer : Option OptState := none) :
    Except String (ModelState × Option OptState × List String) :=
  match paddleLoad fs (init_from_ckpt ++ ".pdparams") with
  | Except.error e => Except.error e
  | Except.ok params_state_dict =>
    let model := ModelState.mk params_state_dict
    match optimizer with
    | some _ =>
      match paddleLoad fs (init_from_ckpt ++ ".pdopt") with
      | Except.error e => Except.error e
      | Except.ok opt_state_dict =>
        Except.ok (model, some (OptState.mk opt_state_dict),
          [init_from_ckpt ++ ".pdparams", init_from_ckpt ++ ".pdopt"])
    | none => Except.ok (model, none, [init_from_ckpt ++ ".pdparams"])

/-- `os.path.join` for a directory and a file name (lines 27-28). -/
def pathJoin (dir file : String) : String := dir ++ "/" ++ file

/-- The two paths written by `save_ckpt` for a checkpoint `name` under
`output_dir` (lines 27-28): `{name}.pdparams` then `{name}.pdopt`. -/
def savePaths (output_dir name : String) : List String :=
  [pathJoin output_dir (name ++ ".pdparams"), pathJoin output_dir (name ++ ".pdopt")]

/-- `save_ckpt(model, optimizer, output_dir, name)` (lines 26-30): writes the
model state dict to `{output_dir}/{name}.pdparams` and the optimizer state
dict to `{output_dir}/{name}.pdopt`, and nothing else.  Returns the updated
file system and the write events in program order. -/
def save_ckpt (model : ModelState) (optimizer : OptState) (fs : FS)
    (output_dir name : String) : FS × List Ev :=
  let params_path := pathJoin output_dir (name ++ ".pdparams")
  let opt_path := pathJoin output_dir (name ++ ".pdopt")
  (fsWrite (fsWrite fs params_path (Blob.valid model.params)) opt_path
      (Blob.valid optimizer.slots),
   [Ev.saveFile params_path, Ev.saveFile opt_path])

/-!  ## Run initialization (`main`, lines 82-91) -/

/-- The `NoamDecay` learning-rate scheduler as constructed at lines 82-83:
`NoamDecay(1 / (warmup_steps * lr**2), warmup_steps)`, with no steps taken
yet. -/
structure NoamDecayState where
  d_model : ℚ
  warmup_steps : Nat
  steps_taken : Nat
deriving DecidableEq, Repr

/-- The scheduler freshly constructed by `main` (lines 82-83). -/
def freshScheduler (warmup_steps : Nat) (lr : ℚ) : NoamDecayState :=
  ⟨1 / ((warmup_steps : ℚ) * lr ^ 2), warmup_steps, 0⟩

/-- The startup sequence of `main` around checkpoint resumption
(lines 82-91): construct the scheduler and a fresh optimizer (no
accumulated slots), then, when `args.init_from_ckpt` is set, call
`load_ckpt(args.init_from_ckpt, model)` — without supplying the optimizer.
Returns the model, optimizer and scheduler states together with the list of
checkpoint files read. -/
def mainInit (fs : FS) (warmup_steps : Nat) (lr : ℚ)
    (init_from_ckpt : Option String) (model : ModelState) :
    Except String (ModelState × OptState × NoamDecayState × List String) :=
  let lr_scheduler := freshScheduler warmup_steps lr
  let optimizer : OptState := ⟨[]⟩
  match init_from_ckpt with
  | some ckpt =>
    match load_ckpt fs ckpt model with
    | Except.error e => Except.error e
    | Except.ok (model, _, reads) => Except.ok (model, optimizer, lr_scheduler, reads)
  | none => Except.ok (model, optimizer, lr_scheduler, [])

/-!  ## The training loop (`main`, lines 93-123)

The external framework is abstracted by step-indexed oracles: any concrete
run of the real program (model parameters, optimizer moments, data, clock)
induces such a family of values.  The control flow, the order of the
per-batch calls, the cadence conditions and every reported number are
translated from the source. -/

/-- The run configuration fields the training loop reads
(`args.epochs, args.logging_steps, args.save_steps, args.save_dir`). -/
structure Config where
  epochs : Nat
  logging_steps : Nat
  save_steps : Nat
  save_dir : String
deriving DecidableEq, Repr

/-- Step-indexed oracles for the external framework quantities consumed by
the loop: `lossAt n` is the scalar of `F.cross_entropy(logits, tgt_label)`
at global step `n` (line 105); `lrAt n` is `optimizer.get_lr()` there
(line 117); `evalSumLossAt n b` is the sum-reduced evaluation loss of batch
`b` for the model parameters current at step `n` (line 139); `durAt n` is
the wall-clock duration of step `n` (lines 98, 111, 123); `fexp` is the
scalar exponential (`paddle.exp` at line 114, `math.exp` at line 145). -/
structure FW where
  lossAt : Nat → ℚ
  lrAt : Nat → ℚ
  evalSumLossAt : Nat → Batch → ℚ
  durAt : Nat → ℚ
  fexp : ℚ → ℚ

/-- The loop-carried mutable state of `main` (lines 93-94): the global step
counter and the elapsed-time accumulator. -/
structure LoopState where
  step : Nat
  total_time : ℚ
deriving DecidableEq, Repr

/-- Python's `%` on naturals: raises `ZeroDivisionError` on a zero divisor. -/
def pyMod (a b : Nat) : Except String Nat :=
  if b = 0 then Except.error "ZeroDivisionError" else Except.ok (a % b)

/-- The six per-batch training operations (lines 101-109), in program order:
unpack the 6-tuple, forward on
`(token_ids, type_ids, pos_ids, generation_mask, tgt_pos)`, cross-entropy
against `tgt_label` with the default mean reduction, backward, optimizer
step, scheduler step, gradient clearing. -/
def batchOps (b : Batch) : List Ev :=
  [Ev.forward (b.token_ids, b.type_ids, b.pos_ids, b.generation_mask, b.tgt_pos),
   Ev.crossEntropy b.tgt_label Reduction.mean,
   Ev.backward, Ev.optStep, Ev.lrStep, Ev.clearGrad]

/-- One iteration of the inner loop of `main` (lines 99-123) for the batch
`b`, from loop state `st`: increment the step counter, run the six batch
operations, accumulate the elapsed time, and — only when `rank == 0` — log
on `step % logging_steps == 0` (resetting the accumulator) and run
evaluation followed by `save_ckpt(..., args.save_dir, step)` on
`step % save_steps == 0`. -/
def trainStep (cfg : Config) (fw : FW) (rank : Nat) (valid : List Batch)
    (st : LoopState) (b : Batch) : Except String (LoopState × List Ev) :=
  let step := st.step + 1
  let total_time := st.total_time + fw.durAt step
  if rank = 0 then
    match pyMod step cfg.logging_steps with
    | Except.error e => Except.error e
    | Except.ok logRem =>
      let (total_time', logEvs) :=
        if logRem = 0 then
          ((0 : ℚ),
           [Ev.logLine ⟨step, fw.lossAt step, fw.fexp (fw.lossAt step), fw.lrAt step,
                        total_time / (cfg.logging_steps : ℚ)⟩])
        else (total_time, [])
      match pyMod step cfg.save_steps with
      | Except.error e => Except.error e
      | Except.ok saveRem =>
        if saveRem = 0 then
          match evaluation fw.fexp ⟨fw.evalSumLossAt step⟩ valid with
          | Except.error e => Except.error e
          | Except.ok (_r, evalEvs) =>
            Except.ok (⟨step, total_time'⟩,
              batchOps b ++ logEvs
                ++ (evalEvs ++ (savePaths cfg.save_dir (toString step)).map Ev.saveFile))
        else Except.ok (⟨step, total_time'⟩, batchOps b ++ logEvs)
  else Except.ok (⟨step, total_time⟩, batchOps b)

/-- The inner `for inputs in train_dataloader` loop (line 99), over the
remaining batches. -/
def trainSteps (cfg : Config) (fw : FW) (rank : Nat) (valid : List Batch) :
    LoopState → List Batch → Except String (LoopState × List Ev)
  | st, [] => Except.ok (st, [])
  | st, b :: bs =>
    match trainStep cfg fw rank valid st b with
    | Except.error e => Except.error e
    | Except.ok (st1, evs1) =>
      match trainSteps cfg fw rank valid st1 bs with
      | Except.error e => Except.error e
      | Except.ok (st2, evs2) => Except.ok (st2, evs1 ++ evs2)

/-- The outer `for epoch in range(args.epochs)` loop (lines 95-123), from
epoch index `epoch` with `rem` epochs remaining: on rank 0 print the epoch
header, then run the inner loop over the training stream. -/
def trainEpochsFrom (cfg : Config) (fw : FW) (rank : Nat)
    (train valid : List Batch) : Nat → Nat → LoopState → Except String (LoopState × List Ev)
  | _, 0, st => Except.ok (st, [])
  | epoch, rem + 1, st =>
    let hdr : List Ev := if rank = 0 then [Ev.epochHeader (epoch + 1)] else []
    match trainSteps cfg fw rank valid st train with
    | Except.error e => Except.error e
    | Except.ok (st1, evs1) =>
      match trainEpochsFrom cfg fw rank train valid (epoch + 1) rem st1 with
      | Except.error e => Except.error e
      | Except.ok (st2, evs2) => Except.ok (st2, hdr ++ evs1 ++ evs2)

/-- The whole training loop of `main` (lines 93-123): `step = 0`,
`total_time = 0.0`, then all configured epochs over the training stream. -/
def mainTrainLoop (cfg : Config) (fw : FW) (rank : Nat)
    (train valid : List Batch) : Except String (LoopState × List Ev) :=
  trainEpochsFrom cfg fw rank train valid 0 cfg.epochs ⟨0, 0⟩

/-!  ### Pure mirrors of the rank-0 loop under well-formed cadences

When `logging_steps` and `save_steps` are non-zero and the validation
stream has a non-zero token count, the rank-0 loop cannot fail; these
total functions compute its successor state and its event trace, and are
proved equal to the monadic source translation above. -/

/-- Successor loop state of one rank-0 iteration: the step increments; the
time accumulator is reset exactly by a logging step, otherwise it grows by
the step's duration. -/
def stepNext (cfg : Config) (fw : FW) (st : LoopState) : LoopState :=
  ⟨st.step + 1,
   if (st.step + 1) % cfg.logging_steps = 0 then 0
   else st.total_time + fw.durAt (st.step + 1)⟩

/-- The log events of one rank-0 iteration (lines 113-119). -/
def logEvsAt (cfg : Config) (fw : FW) (st : LoopState) : List Ev :=
  if (st.step + 1) % cfg.logging_steps = 0 then
    [Ev.logLine ⟨st.step + 1, fw.lossAt (st.step + 1), fw.fexp (fw.lossAt (st.step + 1)),
                 fw.lrAt (st.step + 1),
                 (st.total_time + fw.durAt (st.step + 1)) / (cfg.logging_steps : ℚ)⟩]
  else []

/-- The evaluation+checkpoint events of one rank-0 iteration (lines
120-122): at a multiple of `save_steps`, a full evaluation run over the
validation stream followed by the two checkpoint writes named by the
current step. -/
def saveEvsAt (cfg : Config) (fw : FW) (valid : List Batch) (s : Nat) : List Ev :=
  if s % cfg.save_steps = 0 then
    evalEvsOk fw.fexp ⟨fw.evalSumLossAt s⟩ valid
      ++ (savePaths cfg.save_dir (toString s)).map Ev.saveFile
  else []

/-- The full event list of one rank-0 iteration. -/
def stepEvs0 (cfg : Config) (fw : FW) (valid : List Batch)
    (st : LoopState) (b : Batch) : List Ev :=
  batchOps b ++ logEvsAt cfg fw st ++ saveEvsAt cfg fw valid (st.step + 1)

/-- `n`-fold iteration of `stepNext`. -/
def statesNext (cfg : Config) (fw : FW) : LoopState → Nat → LoopState
  | st, 0 => st
  | st, n + 1 => statesNext cfg fw (stepNext cfg fw st) n

/-- The rank-0 trace of the inner loop over a batch list. -/
def stepsEvs (cfg : Config) (fw : FW) (valid : List Batch) :
    LoopState → List Batch → List Ev
  | _, [] => []
  | st, b :: bs =>
    stepEvs0 cfg fw valid st b ++ stepsEvs cfg fw valid (stepNext cfg fw st) bs

/-- The rank-0 trace of the outer epoch loop. -/
def epochsEvs (cfg : Config) (fw : FW) (train valid : List Batch) :
    Nat → Nat → LoopState → List Ev
  | _, 0, _ => []
  | epoch, rem + 1, st =>
    Ev.epochHeader (epoch + 1)
      :: (stepsEvs cfg fw valid st train
          ++ epochsEvs cfg fw train valid (epoch + 1) rem
               (statesNext cfg fw st train.length))

/-!  ### Event classifiers and trace measurements -/

/-- Number of `model.eval()` events — one per evaluation run. -/
def countEval (evs : List Ev) : Nat :=
  evs.countP fun e => match e with | Ev.modelEval => true | _ => false

/-- Checkpoint-file write events. -/
def isSaveFile : Ev → Bool
  | Ev.saveFile _ => true
  | _ => false

/-- Events that write to a shared resource: console prints and checkpoint
file writes. -/
def isWrite : Ev → Bool
  | Ev.logLine _ => true
  | Ev.epochHeader _ => true
  | Ev.evalReport _ => true
  | Ev.saveFile _ => true
  | _ => false

/-- Events produced by the six per-batch training operations. -/
def isBatchOp : Ev → Bool
  | Ev.forward _ => true
  | Ev.crossEntropy _ Reduction.mean => true
  | Ev.backward => true
  | Ev.optStep => true
  | Ev.lrStep => true
  | Ev.clearGrad => true
  | _ => false

/-- The step indices of the log lines of a trace, in order. -/
def logSteps (evs : List Ev) : List Nat :=
  evs.filterMap fun e => match e with | Ev.logLine r => some r.step | _ => none

/-- The value of the `total_time` accumulator after `n` global steps of a
rank-0 run started at `step = 0, total_time = 0.0`. -/
def ttRun (cfg : Config) (fw : FW) : Nat → ℚ
  | 0 => 0
  | n + 1 =>
    if (n + 1) % cfg.logging_steps = 0 then 0 else ttRun cfg fw n + fw.durAt (n + 1)

/-!  ### Concrete demonstration inputs -/

/-- A concrete training batch. -/
def demoBatch : Batch := ⟨[1], [0], [0], [1], [7], [0]⟩

/-- A concrete validation batch, distinct from the training batch. -/
def demoValid : Batch := ⟨[2], [0], [0], [1], [9, 9], [0]⟩

/-- Concrete framework oracles. -/
def demoFW : FW := ⟨fun _ => 2, fun _ => 1, fun _ _ => 3, fun _ => 1, fun q => q + 1⟩

/-- A concrete configuration: 1 epoch, log every step, checkpoint every step. -/
def demoCfg : Config := ⟨1, 1, 1, "out"⟩

/-- A concrete scalar exponential oracle. -/
def demoExp : ℚ → ℚ := fun q => q + 1

/-- A concrete evaluation model oracle. -/
def demoEvalModel : EvalModel := ⟨fun _ => 3⟩

theorem evaluation_ok (fexp : ℚ → ℚ) (m : EvalModel) (stream : List Batch)
    (hT : totalTokens stream ≠ 0) :
    evaluation fexp m stream = Except.ok (evalRec fexp m stream, evalEvsOk fexp m stream) := by
  simp [evaluation, evalRec, evalEvsOk, hT]

/-- C1.  `evaluation` iterates the stream exactly once with the model in
evaluation mode (trace: `model.eval()`, then exactly one forward +
sum-cross-entropy per batch in stream order, then the report and
`model.train()`), accumulates the sum-reduced loss and target-token count
over all batches, and reports mean loss `total_loss / total_tokens` and
perplexity `exp` of that mean loss; for a single-batch stream the mean loss
is `sum_loss(B) / token_count(B)`. -/
theorem evaluation_mean_loss_spec (fexp : ℚ → ℚ) (m : EvalModel) (stream : List Batch)
    (hT : totalTokens stream ≠ 0) :
    (evaluation fexp m stream =
      Except.ok (⟨totalLoss m stream / (totalTokens stream : ℚ),
                  fexp (totalLoss m stream / (totalTokens stream : ℚ))⟩,
        Ev.modelEval :: stream.flatMap evalBatchEvents
          ++ [Ev.evalReport ⟨totalLoss m stream / (totalTokens stream : ℚ),
                             fexp (totalLoss m stream / (totalTokens stream : ℚ))⟩,
              Ev.modelTrain])) ∧
    (∀ b : Batch, stream = [b] →
      totalLoss m stream / (totalTokens stream : ℚ) =
        m.sumLoss b / (b.tgt_label.length : ℚ)) := by
  refine ⟨?_, ?_⟩
  · simpa [evalRec, evalEvsOk] using evaluation_ok fexp m stream hT
  · rintro b rfl
    simp [totalLoss, totalTokens]

/-- Witness for C1: a concrete single-batch stream. -/
theorem evaluation_mean_loss_spec_witness :
    totalTokens [Batch.mk [1] [0] [0] [1] [7, 8] [0]] ≠ 0 ∧
    totalLoss ⟨fun _ => 3⟩ [Batch.mk [1] [0] [0] [1] [7, 8] [0]] /
        (totalTokens [Batch.mk [1] [0] [0] [1] [7, 8] [0]] : ℚ) =
      EvalModel.sumLoss ⟨fun _ => 3⟩ (Batch.mk [1] [0] [0] [1] [7, 8] [0]) /
        ((Batch.mk [1] [0] [0] [1] [7, 8] [0]).tgt_label.length : ℚ) :=
  ⟨by decide,
   (evaluation_mean_loss_spec (fun q => q + 1) ⟨fun _ => 3⟩
      [Batch.mk [1] [0] [0] [1] [7, 8] [0]] (by decide)).2
     (Batch.mk [1] [0] [0] [1] [7, 8] [0]) rfl⟩

/-- C2.  On an empty validation stream, `evaluation` raises a fatal
error (the Python `ZeroDivisionError` from `total_loss / total_tokens` with
`total_tokens == 0` at line 144 propagates and aborts the run) instead of
returning a NaN/Inf perplexity. -/
theorem evaluation_empty_stream_fatal (fexp : ℚ → ℚ) (m : EvalModel) :
    evaluation fexp m [] = Except.error "ZeroDivisionError" := by
  simp [evaluation, totalTokens]

theorem append_pdopt_ne_append_pdparams (a : String) :
    a ++ ".pdopt" ≠ a ++ ".pdparams" := by
  intro h
  have h2 := congrArg String.data h
  simp only [String.data_append] at h2
  have h3 := List.append_cancel_left h2
  simp at h3

/-- C7 counterexample.  The claim names the artifacts `{name}.params` and
`{name}.opt`; the code writes `{name}.pdparams` and `{name}.pdopt`.  Saving
checkpoint name `10` under directory `out` on an empty file system leaves no
file at `out/10.params` and no file at `out/10.opt`; the two files actually
written are `out/10.pdparams` and `out/10.pdopt`. -/
theorem save_ckpt_extension_counterexample :
    ((save_ckpt ⟨[("w", 1)]⟩ ⟨[("m", 2)]⟩ [] "out" "10").1.lookup "out/10.params"
        = none) ∧
    ((save_ckpt ⟨[("w", 1)]⟩ ⟨[("m", 2)]⟩ [] "out" "10").1.lookup "out/10.opt"
        = none) ∧
    ((save_ckpt ⟨[("w", 1)]⟩ ⟨[("m", 2)]⟩ [] "out" "10").1.map Prod.fst
        = ["out/10.pdopt", "out/10.pdparams"]) ∧
    ((save_ckpt ⟨[("w", 1)]⟩ ⟨[("m", 2)]⟩ [] "out" "10").2
        = [Ev.saveFile "out/10.pdparams", Ev.saveFile "out/10.pdopt"]) := by
  refine ⟨?_, ?_, ?_, ?_⟩ <;> rfl

/-- C7 amended.  For every checkpoint name, saving writes exactly two
artifacts — the model parameter state to `{name}.pdparams` and the optimizer
state to `{name}.pdopt` — under the given output directory, and
`load_ckpt`, given path prefix `{output_dir}/{name}`, reads files with those
same two names (the optimizer file only when an optimizer is supplied). -/
theorem save_ckpt_two_artifacts (model : ModelState) (optimizer : OptState)
    (fs : FS) (output_dir name : String) :
    ((save_ckpt model optimizer fs output_dir name).1 =
      (pathJoin output_dir (name ++ ".pdopt"), Blob.valid optimizer.slots) ::
      (pathJoin output_dir (name ++ ".pdparams"), Blob.valid model.params) :: fs) ∧
    ((save_ckpt model optimizer fs output_dir name).2 =
      [Ev.saveFile (pathJoin output_dir (name ++ ".pdparams")),
       Ev.saveFile (pathJoin output_dir (name ++ ".pdopt"))]) ∧
    (∀ (model' : ModelState) (opt' : OptState),
      load_ckpt (save_ckpt model optimizer fs output_dir name).1
          (pathJoin output_dir name) model' (some opt') =
        Except.ok (ModelState.mk model.params, some (OptState.mk optimizer.slots),
          [pathJoin output_dir name ++ ".pdparams",
           pathJoin output_dir name ++ ".pdopt"])) := by
  refine ⟨rfl, rfl, fun model' opt' => ?_⟩
  have hp : pathJoin output_dir name ++ ".pdparams"
      = pathJoin output_dir (name ++ ".pdparams") := by
    simp [pathJoin, String.append_assoc]
  have ho : pathJoin output_dir name ++ ".pdopt"
      = pathJoin output_dir (name ++ ".pdopt") := by
    simp [pathJoin, String.append_assoc]
  have hne : pathJoin output_dir (name ++ ".pdopt")
      ≠ pathJoin output_dir (name ++ ".pdparams") := by
    simp only [pathJoin, String.append_assoc]
    intro h
    exact append_pdopt_ne_append_pdparams (output_dir ++ ("/" ++ name))
      (by simpa [String.append_assoc] using h)
  have hne' : pathJoin output_dir (name ++ ".pdparams")
      ≠ pathJoin output_dir (name ++ ".pdopt") := fun h => hne h.symm
  have hbeq : (pathJoin output_dir (name ++ ".pdparams")
      == pathJoin output_dir (name ++ ".pdopt")) = false :=
    beq_eq_false_iff_ne.mpr hne'
  simp [load_ckpt, paddleLoad, save_ckpt, fsWrite, hp, ho, List.lookup, hne, hbeq]

/-- C8.  `load_ckpt` always reads the `.pdparams` artifact and applies it
to the model's parameter state; it reads and applies the `.pdopt` artifact
if and only if an optimizer is supplied (model-only restore is valid); and a
missing or malformed required file makes the load fail as a fatal error with
no fallback. -/
theorem load_ckpt_spec (fs : FS) (p : String) (model : ModelState) :
    -- (1) params artifact present & well-formed, no optimizer: only the
    -- params file is read and applied; the opt artifact is not read.
    (∀ sd : StateDict, paddleLoad fs (p ++ ".pdparams") = Except.ok sd →
      load_ckpt fs p model = Except.ok (ModelState.mk sd, none, [p ++ ".pdparams"])) ∧
    -- (2) with an optimizer supplied and both artifacts well-formed, both
    -- files are read and applied, params first.
    (∀ (sd od : StateDict) (o : OptState),
      paddleLoad fs (p ++ ".pdparams") = Except.ok sd →
      paddleLoad fs (p ++ ".pdopt") = Except.ok od →
      load_ckpt fs p model (some o) =
        Except.ok (ModelState.mk sd, some (OptState.mk od),
          [p ++ ".pdparams", p ++ ".pdopt"])) ∧
    -- (3) a failing params load is fatal, whether or not an optimizer is
    -- supplied.
    (∀ (e : String) (opt : Option OptState),
      paddleLoad fs (p ++ ".pdparams") = Except.error e →
      load_ckpt fs p model opt = Except.error e) ∧
    -- (4) with an optimizer supplied, a failing opt load is fatal.
    (∀ (sd : StateDict) (e : String) (o : OptState),
      paddleLoad fs (p ++ ".pdparams") = Except.ok sd →
      paddleLoad fs (p ++ ".pdopt") = Except.error e →
      load_ckpt fs p model (some o) = Except.error e) := by
  refine ⟨?_, ?_, ?_, ?_⟩
  · intro sd h
    simp [load_ckpt, h]
  · intro sd od o h ho
    simp [load_ckpt, h, ho]
  · intro e opt h
    cases opt <;> simp [load_ckpt, h]
  · intro sd e o h ho
    simp [load_ckpt, h, ho]

/-- Witness for C8: a concrete file system holding a valid params file and a
valid opt file under prefix `ck`. -/
theorem load_ckpt_spec_witness :
    paddleLoad [("ck.pdparams", Blob.valid [("w", 5)]), ("ck.pdopt", Blob.valid [("m", 6)])]
        ("ck" ++ ".pdparams") = Except.ok [("w", 5)] ∧
    load_ckpt [("ck.pdparams", Blob.valid [("w", 5)]), ("ck.pdopt", Blob.valid [("m", 6)])]
        "ck" ⟨[]⟩ = Except.ok (ModelState.mk [("w", 5)], none, ["ck" ++ ".pdparams"]) :=
  ⟨rfl,
   (load_ckpt_spec [("ck.pdparams", Blob.valid [("w", 5)]), ("ck.pdopt", Blob.valid [("m", 6)])]
      "ck" ⟨[]⟩).1 [("w", 5)] rfl⟩

/-- C10.  When `init_from_ckpt` is set, `main` calls `load_ckpt` without
supplying the optimizer, so only the model parameter state is restored: the
only file read is `{ckpt}.pdparams` (the `.pdopt` artifact is never read),
and the optimizer and learning-rate scheduler are returned exactly as
freshly constructed. -/
theorem mainInit_model_only_restore (fs : FS) (warmup_steps : Nat) (lr : ℚ)
    (ckpt : String) (model : ModelState) (sd : StateDict)
    (h : paddleLoad fs (ckpt ++ ".pdparams") = Except.ok sd) :
    mainInit fs warmup_steps lr (some ckpt) model =
      Except.ok (ModelState.mk sd, OptState.mk [], freshScheduler warmup_steps lr,
        [ckpt ++ ".pdparams"]) ∧
    (ckpt ++ ".pdopt") ∉ [ckpt ++ ".pdparams"] := by
  constructor
  · simp [mainInit, load_ckpt, h]
  · simp [append_pdopt_ne_append_pdparams ckpt]

/-- Witness for C10: a concrete file system where both artifacts exist, yet
only the params file is read. -/
theorem mainInit_model_only_restore_witness :
    paddleLoad [("ck.pdparams", Blob.valid [("w", 5)]), ("ck.pdopt", Blob.valid [("m", 6)])]
        ("ck" ++ ".pdparams") = Except.ok [("w", 5)] ∧
    mainInit [("ck.pdparams", Blob.valid [("w", 5)]), ("ck.pdopt", Blob.valid [("m", 6)])]
        4 (1/2) (some "ck") ⟨[]⟩ =
      Except.ok (ModelState.mk [("w", 5)], OptState.mk [], freshScheduler 4 (1/2),
        ["ck" ++ ".pdparams"]) :=
  ⟨rfl,
   (mainInit_model_only_restore
      [("ck.pdparams", Blob.valid [("w", 5)]), ("ck.pdopt", Blob.valid [("m", 6)])]
      4 (1/2) "ck" ⟨[]⟩ [("w", 5)] rfl).1⟩

/-!  ### The rank-0 loop equals its pure mirror -/

theorem trainStep_rank0 (cfg : Config) (fw : FW) (valid : List Batch)
    (st : LoopState) (b : Batch)
    (hk : cfg.logging_steps ≠ 0) (hm : cfg.save_steps ≠ 0)
    (hT : totalTokens valid ≠ 0) :
    trainStep cfg fw 0 valid st b =
      Except.ok (stepNext cfg fw st, stepEvs0 cfg fw valid st b) := by
  unfold trainStep
  simp only [if_pos rfl, pyMod, if_neg hk, if_neg hm,
    evaluation_ok fw.fexp ⟨fw.evalSumLossAt (st.step + 1)⟩ valid hT,
    stepNext, stepEvs0, logEvsAt, saveEvsAt]
  by_cases hlog : (st.step + 1) % cfg.logging_steps = 0 <;>
    by_cases hsave : (st.step + 1) % cfg.save_steps = 0 <;>
      simp [hlog, hsave]

theorem trainStep_rankNZ (cfg : Config) (fw : FW) (rank : Nat) (valid : List Batch)
    (st : LoopState) (b : Batch) (hr : rank ≠ 0) :
    trainStep cfg fw rank valid st b =
      Except.ok (⟨st.step + 1, st.total_time + fw.durAt (st.step + 1)⟩, batchOps b) := by
  unfold trainStep
  rw [if_neg hr]

theorem trainSteps_rank0 (cfg : Config) (fw : FW) (valid : List Batch)
    (hk : cfg.logging_steps ≠ 0) (hm : cfg.save_steps ≠ 0)
    (hT : totalTokens valid ≠ 0) :
    ∀ (bs : List Batch) (st : LoopState),
      trainSteps cfg fw 0 valid st bs =
        Except.ok (statesNext cfg fw st bs.length, stepsEvs cfg fw valid st bs)
  | [], st => rfl
  | b :: bs, st => by
    simp only [trainSteps, trainStep_rank0 cfg fw valid st b hk hm hT,
      trainSteps_rank0 cfg fw valid hk hm hT bs (stepNext cfg fw st),
      stepsEvs, statesNext, List.length_cons]

theorem statesNext_step (cfg : Config) (fw : FW) :
    ∀ (n : Nat) (st : LoopState), (statesNext cfg fw st n).step = st.step + n
  | 0, _ => rfl
  | n + 1, st => by
    rw [statesNext, statesNext_step cfg fw n (stepNext cfg fw st)]
    simp [stepNext]
    omega

theorem statesNext_add (cfg : Config) (fw : FW) :
    ∀ (a b : Nat) (st : LoopState),
      statesNext cfg fw st (a + b) = statesNext cfg fw (statesNext cfg fw st a) b
  | 0, b, st => by rw [Nat.zero_add]; rfl
  | a + 1, b, st => by
    have h : a + 1 + b = (a + b) + 1 := by omega
    rw [h, statesNext, statesNext, statesNext_add cfg fw a b (stepNext cfg fw st)]

theorem trainEpochsFrom_rank0 (cfg : Config) (fw : FW) (train valid : List Batch)
    (hk : cfg.logging_steps ≠ 0) (hm : cfg.save_steps ≠ 0)
    (hT : totalTokens valid ≠ 0) :
    ∀ (rem epoch : Nat) (st : LoopState),
      trainEpochsFrom cfg fw 0 train valid epoch rem st =
        Except.ok (statesNext cfg fw st (rem * train.length),
                   epochsEvs cfg fw train valid epoch rem st)
  | 0, epoch, st => by simp [trainEpochsFrom, statesNext, epochsEvs]
  | rem + 1, epoch, st => by
    have h : (rem + 1) * train.length = train.length + rem * train.length := by ring
    simp only [trainEpochsFrom, trainSteps_rank0 cfg fw valid hk hm hT train st,
      trainEpochsFrom_rank0 cfg fw train valid hk hm hT rem (epoch + 1)
        (statesNext cfg fw st train.length),
      h, statesNext_add cfg fw train.length (rem * train.length) st,
      epochsEvs, if_pos rfl, if_true, List.cons_append, List.append_assoc,
      List.nil_append]

theorem mainTrainLoop_rank0 (cfg : Config) (fw : FW) (train valid : List Batch)
    (hk : cfg.logging_steps ≠ 0) (hm : cfg.save_steps ≠ 0)
    (hT : totalTokens valid ≠ 0) :
    mainTrainLoop cfg fw 0 train valid =
      Except.ok (statesNext cfg fw ⟨0, 0⟩ (cfg.epochs * train.length),
                 epochsEvs cfg fw train valid 0 cfg.epochs ⟨0, 0⟩) :=
  trainEpochsFrom_rank0 cfg fw train valid hk hm hT cfg.epochs 0 ⟨0, 0⟩

/-!  ### Counting evaluations and checkpoint writes in a trace -/

theorem countEval_append (a b : List Ev) :
    countEval (a ++ b) = countEval a + countEval b :=
  List.countP_append _ a b

theorem countEval_batchOps (b : Batch) : countEval (batchOps b) = 0 := rfl

theorem countEval_logEvsAt (cfg : Config) (fw : FW) (st : LoopState) :
    countEval (logEvsAt cfg fw st) = 0 := by
  unfold logEvsAt
  split <;> rfl

theorem countEval_evalStream (stream : List Batch) :
    countEval (stream.flatMap evalBatchEvents) = 0 := by
  induction stream with
  | nil => rfl
  | cons b bs ih => simp [List.flatMap_cons, countEval_append, ih]; rfl

theorem countEval_evalEvsOk (fexp : ℚ → ℚ) (m : EvalModel) (stream : List Batch) :
    countEval (evalEvsOk fexp m stream) = 1 := by
  have h := countEval_evalStream stream
  rw [evalEvsOk]
  show countEval (Ev.modelEval :: (stream.flatMap evalBatchEvents
    ++ [Ev.evalReport (evalRec fexp m stream), Ev.modelTrain])) = 1
  rw [countEval, List.countP_cons, List.countP_append]
  rw [countEval] at h
  rw [h]
  rfl

theorem countEval_stepEvs0 (cfg : Config) (fw : FW) (valid : List Batch)
    (st : LoopState) (b : Batch) :
    countEval (stepEvs0 cfg fw valid st b) =
      if (st.step + 1) % cfg.save_steps = 0 then 1 else 0 := by
  rw [stepEvs0, countEval_append, countEval_append, countEval_batchOps,
    countEval_logEvsAt, saveEvsAt]
  split
  · rw [countEval_append, countEval_evalEvsOk]
    rfl
  · rfl

theorem countEval_stepsEvs (cfg : Config) (fw : FW) (valid : List Batch) :
    ∀ (bs : List Batch) (st : LoopState),
      countEval (stepsEvs cfg fw valid st bs) =
        (List.range' (st.step + 1) bs.length).countP
          (fun s => s % cfg.save_steps == 0)
  | [], st => rfl
  | b :: bs, st => by
    rw [stepsEvs, countEval_append, countEval_stepEvs0,
      countEval_stepsEvs cfg fw valid bs (stepNext cfg fw st)]
    have hs : (stepNext cfg fw st).step = st.step + 1 := rfl
    rw [hs, List.length_cons, List.range'_succ, List.countP_cons]
    by_cases h : (st.step + 1) % cfg.save_steps = 0 <;> simp [h] <;> omega

theorem countEval_epochsEvs (cfg : Config) (fw : FW) (train valid : List Batch) :
    ∀ (rem epoch : Nat) (st : LoopState),
      countEval (epochsEvs cfg fw train valid epoch rem st) =
        (List.range' (st.step + 1) (rem * train.length)).countP
          (fun s => s % cfg.save_steps == 0)
  | 0, epoch, st => by simp [epochsEvs, countEval]
  | rem + 1, epoch, st => by
    rw [epochsEvs]
    have hcons : countEval (Ev.epochHeader (epoch + 1)
        :: (stepsEvs cfg fw valid st train
            ++ epochsEvs cfg fw train valid (epoch + 1) rem
                 (statesNext cfg fw st train.length))) =
        countEval (stepsEvs cfg fw valid st train
            ++ epochsEvs cfg fw train valid (epoch + 1) rem
                 (statesNext cfg fw st train.length)) := by
      simp [countEval, List.countP_cons]
    rw [hcons, countEval_append, countEval_stepsEvs,
      countEval_epochsEvs cfg fw train valid rem (epoch + 1)
        (statesNext cfg fw st train.length),
      statesNext_step]
    have hr : List.range' (st.step + 1) train.length
        ++ List.range' (st.step + 1 + train.length) (rem * train.length)
        = List.range' (st.step + 1) (train.length + rem * train.length) := by
      have := List.range'_append (st.step + 1) train.length (rem * train.length) 1
      simpa [Nat.add_comm] using this
    have hl : st.step + train.length + 1 = st.step + 1 + train.length := by omega
    rw [hl, ← List.countP_append, hr]
    have hm : (rem + 1) * train.length = train.length + rem * train.length := by ring
    rw [hm]

theorem countSave_append (a b : List Ev) :
    (a ++ b).countP isSaveFile = a.countP isSaveFile + b.countP isSaveFile :=
  List.countP_append _ a b

theorem countSave_batchOps (b : Batch) : (batchOps b).countP isSaveFile = 0 := rfl

theorem countSave_logEvsAt (cfg : Config) (fw : FW) (st : LoopState) :
    (logEvsAt cfg fw st).countP isSaveFile = 0 := by
  unfold logEvsAt
  split <;> rfl

theorem countSave_evalStream (stream : List Batch) :
    (stream.flatMap evalBatchEvents).countP isSaveFile = 0 := by
  induction stream with
  | nil => rfl
  | cons b bs ih =>
    simp [List.flatMap_cons, List.countP_append, ih, evalBatchEvents, isSaveFile]

theorem countSave_evalEvsOk (fexp : ℚ → ℚ) (m : EvalModel) (stream : List Batch) :
    (evalEvsOk fexp m stream).countP isSaveFile = 0 := by
  have h := countSave_evalStream stream
  rw [evalEvsOk]
  show (Ev.modelEval :: (stream.flatMap evalBatchEvents
    ++ [Ev.evalReport (evalRec fexp m stream), Ev.modelTrain])).countP isSaveFile = 0
  rw [List.countP_cons, List.countP_append, h]
  rfl

theorem countSave_stepEvs0 (cfg : Config) (fw : FW) (valid : List Batch)
    (st : LoopState) (b : Batch) :
    (stepEvs0 cfg fw valid st b).countP isSaveFile =
      if (st.step + 1) % cfg.save_steps = 0 then 2 else 0 := by
  rw [stepEvs0, countSave_append, countSave_append, countSave_batchOps,
    countSave_logEvsAt, saveEvsAt]
  split
  · rw [countSave_append, countSave_evalEvsOk]
    rfl
  · rfl

theorem countSave_stepsEvs (cfg : Config) (fw : FW) (valid : List Batch) :
    ∀ (bs : List Batch) (st : LoopState),
      (stepsEvs cfg fw valid st bs).countP isSaveFile =
        2 * (List.range' (st.step + 1) bs.length).countP
          (fun s => s % cfg.save_steps == 0)
  | [], st => rfl
  | b :: bs, st => by
    rw [stepsEvs, countSave_append, countSave_stepEvs0,
      countSave_stepsEvs cfg fw valid bs (stepNext cfg fw st)]
    have hs : (stepNext cfg fw st).step = st.step + 1 := rfl
    rw [hs, List.length_cons, List.range'_succ, List.countP_cons]
    by_cases h : (st.step + 1) % cfg.save_steps = 0 <;> simp [h] <;> omega

theorem countSave_epochsEvs (cfg : Config) (fw : FW) (train valid : List Batch) :
    ∀ (rem epoch : Nat) (st : LoopState),
      (epochsEvs cfg fw train valid epoch rem st).countP isSaveFile =
        2 * (List.range' (st.step + 1) (rem * train.length)).countP
          (fun s => s % cfg.save_steps == 0)
  | 0, epoch, st => by simp [epochsEvs]
  | rem + 1, epoch, st => by
    rw [epochsEvs]
    have hcons : (Ev.epochHeader (epoch + 1)
        :: (stepsEvs cfg fw valid st train
            ++ epochsEvs cfg fw train valid (epoch + 1) rem
                 (statesNext cfg fw st train.length))).countP isSaveFile =
        (stepsEvs cfg fw valid st train
            ++ epochsEvs cfg fw train valid (epoch + 1) rem
                 (statesNext cfg fw st train.length)).countP isSaveFile := by
      simp [List.countP_cons, isSaveFile]
    rw [hcons, countSave_append, countSave_stepsEvs,
      countSave_epochsEvs cfg fw train valid rem (epoch + 1)
        (statesNext cfg fw st train.length),
      statesNext_step]
    have hr : List.range' (st.step + 1) train.length
        ++ List.range' (st.step + 1 + train.length) (rem * train.length)
        = List.range' (st.step + 1) (train.length + rem * train.length) := by
      have := List.range'_append (st.step + 1) train.length (rem * train.length) 1
      simpa [Nat.add_comm] using this
    have hl : st.step + train.length + 1 = st.step + 1 + train.length := by omega
    rw [hl, ← Nat.mul_add, ← List.countP_append, hr]
    have hm : (rem + 1) * train.length = train.length + rem * train.length := by ring
    rw [hm]

/-!  ### The log lines of a trace -/

theorem logSteps_append (a b : List Ev) :
    logSteps (a ++ b) = logSteps a ++ logSteps b :=
  List.filterMap_append a b _

theorem logSteps_batchOps (b : Batch) : logSteps (batchOps b) = [] := rfl

theorem logSteps_evalStream (stream : List Batch) :
    logSteps (stream.flatMap evalBatchEvents) = [] := by
  induction stream with
  | nil => rfl
  | cons b bs ih =>
    simp only [List.flatMap_cons, logSteps_append, ih, evalBatchEvents]
    rfl

theorem logSteps_evalEvsOk (fexp : ℚ → ℚ) (m : EvalModel) (stream : List Batch) :
    logSteps (evalEvsOk fexp m stream) = [] := by
  have h := logSteps_evalStream stream
  rw [logSteps] at h ⊢
  rw [evalEvsOk]
  simp only [List.filterMap_cons, List.filterMap_append, h]
  rfl

theorem logSteps_saveEvsAt (cfg : Config) (fw : FW) (valid : List Batch) (s : Nat) :
    logSteps (saveEvsAt cfg fw valid s) = [] := by
  rw [saveEvsAt]
  split
  · rw [logSteps_append, logSteps_evalEvsOk]
    rfl
  · rfl

theorem logSteps_logEvsAt (cfg : Config) (fw : FW) (st : LoopState) :
    logSteps (logEvsAt cfg fw st) =
      if (st.step + 1) % cfg.logging_steps = 0 then [st.step + 1] else [] := by
  rw [logEvsAt]
  split
  · rfl
  · rfl

theorem logSteps_stepEvs0 (cfg : Config) (fw : FW) (valid : List Batch)
    (st : LoopState) (b : Batch) :
    logSteps (stepEvs0 cfg fw valid st b) =
      if (st.step + 1) % cfg.logging_steps = 0 then [st.step + 1] else [] := by
  rw [stepEvs0, logSteps_append, logSteps_append, logSteps_batchOps,
    logSteps_logEvsAt, logSteps_saveEvsAt]
  split
  · rfl
  · rfl

theorem logSteps_stepsEvs (cfg : Config) (fw : FW) (valid : List Batch) :
    ∀ (bs : List Batch) (st : LoopState),
      logSteps (stepsEvs cfg fw valid st bs) =
        (List.range' (st.step + 1) bs.length).filter
          (fun s => s % cfg.logging_steps == 0)
  | [], st => rfl
  | b :: bs, st => by
    rw [stepsEvs, logSteps_append, logSteps_stepEvs0,
      logSteps_stepsEvs cfg fw valid bs (stepNext cfg fw st)]
    have hs : (stepNext cfg fw st).step = st.step + 1 := rfl
    rw [hs, List.length_cons, List.range'_succ, List.filter_cons]
    by_cases h : (st.step + 1) % cfg.logging_steps = 0 <;> simp [h]

theorem logSteps_epochsEvs (cfg : Config) (fw : FW) (train valid : List Batch) :
    ∀ (rem epoch : Nat) (st : LoopState),
      logSteps (epochsEvs cfg fw train valid epoch rem st) =
        (List.range' (st.step + 1) (rem * train.length)).filter
          (fun s => s % cfg.logging_steps == 0)
  | 0, epoch, st => by simp [epochsEvs, logSteps]
  | rem + 1, epoch, st => by
    rw [epochsEvs]
    have hcons : logSteps (Ev.epochHeader (epoch + 1)
        :: (stepsEvs cfg fw valid st train
            ++ epochsEvs cfg fw train valid (epoch + 1) rem
                 (statesNext cfg fw st train.length))) =
        logSteps (stepsEvs cfg fw valid st train
            ++ epochsEvs cfg fw train valid (epoch + 1) rem
                 (statesNext cfg fw st train.length)) := by
      rw [logSteps, List.filterMap_cons, logSteps]
    rw [hcons, logSteps_append, logSteps_stepsEvs,
      logSteps_epochsEvs cfg fw train valid rem (epoch + 1)
        (statesNext cfg fw st train.length),
      statesNext_step]
    have hr : List.range' (st.step + 1) train.length
        ++ List.range' (st.step + 1 + train.length) (rem * train.length)
        = List.range' (st.step + 1) (train.length + rem * train.length) := by
      have := List.range'_append (st.step + 1) train.length (rem * train.length) 1
      simpa [Nat.add_comm] using this
    have hl : st.step + train.length + 1 = st.step + 1 + train.length := by omega
    rw [hl, ← List.filter_append, hr]
    have hm : (rem + 1) * train.length = train.length + rem * train.length := by ring
    rw [hm]

/-!  ### Contents of log lines and evaluation summaries -/

theorem logLine_not_mem_evalStream (stream : List Batch) (r : LogRec) :
    Ev.logLine r ∉ stream.flatMap evalBatchEvents := by
  simp [List.mem_flatMap, evalBatchEvents]

theorem logLine_not_mem_evalEvsOk (fexp : ℚ → ℚ) (m : EvalModel)
    (stream : List Batch) (r : LogRec) :
    Ev.logLine r ∉ evalEvsOk fexp m stream := by
  simp [evalEvsOk, List.mem_flatMap, evalBatchEvents]

theorem logLine_not_mem_saveEvsAt (cfg : Config) (fw : FW) (valid : List Batch)
    (s : Nat) (r : LogRec) :
    Ev.logLine r ∉ saveEvsAt cfg fw valid s := by
  rw [saveEvsAt]
  split
  · intro hmem
    rcases List.mem_append.mp hmem with h | h
    · exact logLine_not_mem_evalEvsOk _ _ _ r h
    · simp [savePaths] at h
  · simp

theorem logLine_mem_stepEvs0 (cfg : Config) (fw : FW) (valid : List Batch)
    (st : LoopState) (b : Batch) (r : LogRec)
    (hmem : Ev.logLine r ∈ stepEvs0 cfg fw valid st b) :
    (st.step + 1) % cfg.logging_steps = 0 ∧
    r = ⟨st.step + 1, fw.lossAt (st.step + 1), fw.fexp (fw.lossAt (st.step + 1)),
         fw.lrAt (st.step + 1),
         (st.total_time + fw.durAt (st.step + 1)) / (cfg.logging_steps : ℚ)⟩ := by
  rw [stepEvs0] at hmem
  simp only [List.mem_append] at hmem
  rcases hmem with (h | h) | h
  · simp [batchOps] at h
  · rw [logEvsAt] at h
    by_cases hc : (st.step + 1) % cfg.logging_steps = 0
    · rw [if_pos hc] at h
      simp at h
      exact ⟨hc, h⟩
    · rw [if_neg hc] at h
      simp at h
  · exact absurd h (logLine_not_mem_saveEvsAt cfg fw valid (st.step + 1) r)

theorem stepNext_tt (cfg : Config) (fw : FW) (st : LoopState)
    (h : st.total_time = ttRun cfg fw st.step) :
    (stepNext cfg fw st).total_time = ttRun cfg fw (stepNext cfg fw st).step := by
  show (if (st.step + 1) % cfg.logging_steps = 0 then (0 : ℚ)
        else st.total_time + fw.durAt (st.step + 1)) = ttRun cfg fw (st.step + 1)
  rw [ttRun, h]

theorem statesNext_tt (cfg : Config) (fw : FW) :
    ∀ (n : Nat) (st : LoopState), st.total_time = ttRun cfg fw st.step →
      (statesNext cfg fw st n).total_time = ttRun cfg fw (statesNext cfg fw st n).step
  | 0, _, h => h
  | n + 1, st, h => by
    rw [statesNext]
    exact statesNext_tt cfg fw n (stepNext cfg fw st) (stepNext_tt cfg fw st h)

theorem logLine_mem_stepsEvs (cfg : Config) (fw : FW) (valid : List Batch) :
    ∀ (bs : List Batch) (st : LoopState), st.total_time = ttRun cfg fw st.step →
    ∀ r : LogRec, Ev.logLine r ∈ stepsEvs cfg fw valid st bs →
      r.step % cfg.logging_steps = 0 ∧ 1 ≤ r.step ∧
      r.loss = fw.lossAt r.step ∧ r.ppl = fw.fexp (fw.lossAt r.step) ∧
      r.lr = fw.lrAt r.step ∧
      r.secsPerStep = (ttRun cfg fw (r.step - 1) + fw.durAt r.step) / (cfg.logging_steps : ℚ)
  | [], st, _, r, hmem => by simp [stepsEvs] at hmem
  | b :: bs, st, hinv, r, hmem => by
    rw [stepsEvs] at hmem
    rcases List.mem_append.mp hmem with h | h
    · obtain ⟨hc, hr⟩ := logLine_mem_stepEvs0 cfg fw valid st b r h
      subst hr
      refine ⟨hc, Nat.le_add_left 1 st.step, rfl, rfl, rfl, ?_⟩
      show (st.total_time + fw.durAt (st.step + 1)) / (cfg.logging_steps : ℚ)
        = (ttRun cfg fw (st.step + 1 - 1) + fw.durAt (st.step + 1)) / (cfg.logging_steps : ℚ)
      rw [Nat.add_sub_cancel, hinv]
    · exact logLine_mem_stepsEvs cfg fw valid bs (stepNext cfg fw st)
        (stepNext_tt cfg fw st hinv) r h

theorem logLine_mem_epochsEvs (cfg : Config) (fw : FW) (train valid : List Batch) :
    ∀ (rem epoch : Nat) (st : LoopState), st.total_time = ttRun cfg fw st.step →
    ∀ r : LogRec, Ev.logLine r ∈ epochsEvs cfg fw train valid epoch rem st →
      r.step % cfg.logging_steps = 0 ∧ 1 ≤ r.step ∧
      r.loss = fw.lossAt r.step ∧ r.ppl = fw.fexp (fw.lossAt r.step) ∧
      r.lr = fw.lrAt r.step ∧
      r.secsPerStep = (ttRun cfg fw (r.step - 1) + fw.durAt r.step) / (cfg.logging_steps : ℚ)
  | 0, epoch, st, _, r, hmem => by simp [epochsEvs] at hmem
  | rem + 1, epoch, st, hinv, r, hmem => by
    rw [epochsEvs] at hmem
    rcases List.mem_cons.mp hmem with h | h
    · exact absurd h (by simp)
    · rcases List.mem_append.mp h with h1 | h2
      · exact logLine_mem_stepsEvs cfg fw valid train st hinv r h1
      · exact logLine_mem_epochsEvs cfg fw train valid rem (epoch + 1)
          (statesNext cfg fw st train.length)
          (statesNext_tt cfg fw train.length st hinv) r h2

theorem evalReport_mem_evalEvsOk (fexp : ℚ → ℚ) (m : EvalModel)
    (stream : List Batch) (r : EvalRec)
    (hmem : Ev.evalReport r ∈ evalEvsOk fexp m stream) :
    r = evalRec fexp m stream := by
  simp [evalEvsOk, List.mem_flatMap, evalBatchEvents] at hmem
  exact hmem

theorem evalReport_mem_stepEvs0 (cfg : Config) (fw : FW) (valid : List Batch)
    (st : LoopState) (b : Batch) (r : EvalRec)
    (hmem : Ev.evalReport r ∈ stepEvs0 cfg fw valid st b) :
    r.ppl = fw.fexp r.loss := by
  rw [stepEvs0] at hmem
  simp only [List.mem_append] at hmem
  rcases hmem with (h | h) | h
  · simp [batchOps] at h
  · rw [logEvsAt] at h
    split at h <;> simp at h
  · rw [saveEvsAt] at h
    split at h
    · rcases List.mem_append.mp h with h1 | h2
      · rw [evalReport_mem_evalEvsOk _ _ _ r h1]
        rfl
      · simp [savePaths] at h2
    · simp at h

theorem evalReport_mem_stepsEvs (cfg : Config) (fw : FW) (valid : List Batch) :
    ∀ (bs : List Batch) (st : LoopState) (r : EvalRec),
      Ev.evalReport r ∈ stepsEvs cfg fw valid st bs → r.ppl = fw.fexp r.loss
  | [], st, r, hmem => by simp [stepsEvs] at hmem
  | b :: bs, st, r, hmem => by
    rw [stepsEvs] at hmem
    rcases List.mem_append.mp hmem with h | h
    · exact evalReport_mem_stepEvs0 cfg fw valid st b r h
    · exact evalReport_mem_stepsEvs cfg fw valid bs (stepNext cfg fw st) r h

theorem evalReport_mem_epochsEvs (cfg : Config) (fw : FW) (train valid : List Batch) :
    ∀ (rem epoch : Nat) (st : LoopState) (r : EvalRec),
      Ev.evalReport r ∈ epochsEvs cfg fw train valid epoch rem st →
        r.ppl = fw.fexp r.loss
  | 0, epoch, st, r, hmem => by simp [epochsEvs] at hmem
  | rem + 1, epoch, st, r, hmem => by
    rw [epochsEvs] at hmem
    rcases List.mem_cons.mp hmem with h | h
    · exact absurd h (by simp)
    · rcases List.mem_append.mp h with h1 | h2
      · exact evalReport_mem_stepsEvs cfg fw valid train st r h1
      · exact evalReport_mem_epochsEvs cfg fw train valid rem (epoch + 1)
          (statesNext cfg fw st train.length) r h2

/-!  ### The elapsed-time accumulator measures the window since the last log -/

theorem ttRun_window (cfg : Config) (fw : FW) :
    ∀ (j a : Nat), j < cfg.logging_steps →
      ttRun cfg fw (a * cfg.logging_steps + j) =
        ((List.range' (a * cfg.logging_steps + 1) j).map fw.durAt).sum
  | 0, a, _ => by
    rcases Nat.eq_zero_or_pos (a * cfg.logging_steps) with h | h
    · rw [Nat.add_zero, h]
      rfl
    · obtain ⟨n, hn⟩ : ∃ n, a * cfg.logging_steps = n + 1 :=
        ⟨a * cfg.logging_steps - 1, by omega⟩
      rw [Nat.add_zero, hn, ttRun]
      have hmod : (n + 1) % cfg.logging_steps = 0 := by
        have h2 := Nat.mul_mod_left a cfg.logging_steps
        rwa [hn] at h2
      rw [if_pos hmod]
      rfl
  | j + 1, a, hj => by
    have hmod : (a * cfg.logging_steps + j + 1) % cfg.logging_steps = j + 1 := by
      have h2 : a * cfg.logging_steps + j + 1
          = cfg.logging_steps * a + (j + 1) := by ring
      rw [h2, Nat.mul_add_mod]
      exact Nat.mod_eq_of_lt hj
    have hne : (a * cfg.logging_steps + j + 1) % cfg.logging_steps ≠ 0 := by
      rw [hmod]
      exact Nat.succ_ne_zero j
    have hrw : a * cfg.logging_steps + (j + 1) = (a * cfg.logging_steps + j) + 1 := by
      omega
    rw [hrw, ttRun, if_neg hne,
      ttRun_window cfg fw j a (Nat.lt_of_succ_lt hj),
      List.range'_1_concat (a * cfg.logging_steps + 1) j,
      List.map_append, List.sum_append]
    have harg : a * cfg.logging_steps + 1 + j = a * cfg.logging_steps + j + 1 := by
      ring
    rw [harg]
    simp

theorem log_window (cfg : Config) (fw : FW) (hk : cfg.logging_steps ≠ 0) (s : Nat)
    (hs1 : 1 ≤ s) (hs0 : s % cfg.logging_steps = 0) :
    ∃ a : Nat, s = (a + 1) * cfg.logging_steps ∧
      ttRun cfg fw (s - 1) + fw.durAt s =
        ((List.range' (a * cfg.logging_steps + 1) cfg.logging_steps).map fw.durAt).sum := by
  obtain ⟨c, hc⟩ := Nat.dvd_of_mod_eq_zero hs0
  obtain ⟨e, he⟩ : ∃ e, cfg.logging_steps = e + 1 := ⟨cfg.logging_steps - 1, by omega⟩
  have hc0 : c ≠ 0 := by
    rintro rfl
    rw [Nat.mul_zero] at hc
    omega
  obtain ⟨a, ha⟩ : ∃ a, c = a + 1 := ⟨c - 1, by omega⟩
  have hs : s = a * cfg.logging_steps + e + 1 := by
    rw [hc, ha, he]
    ring
  refine ⟨a, by rw [hc, ha]; ring, ?_⟩
  have hs' : s - 1 = a * cfg.logging_steps + e := by
    rw [hs, Nat.add_sub_cancel]
  have hconc : ∀ start : Nat,
      List.range' start cfg.logging_steps = List.range' start e ++ [start + e] := by
    intro start
    rw [he]
    exact List.range'_1_concat start e
  rw [hs', ttRun_window cfg fw e a (by omega),
    hconc (a * cfg.logging_steps + 1), List.map_append, List.sum_append]
  have harg : a * cfg.logging_steps + 1 + e = s := by
    rw [hs]
    ring
  rw [harg]
  simp

/-!  ### Non-coordinating ranks: batch operations only -/

theorem countEval_batchOpsStream (bs : List Batch) :
    countEval (bs.flatMap batchOps) = 0 := by
  induction bs with
  | nil => rfl
  | cons b bs ih =>
    simp only [List.flatMap_cons, countEval_append, ih, countEval_batchOps]

theorem countWrite_batchOps (b : Batch) : (batchOps b).countP isWrite = 0 := rfl

theorem countWrite_batchOpsStream (bs : List Batch) :
    (bs.flatMap batchOps).countP isWrite = 0 := by
  induction bs with
  | nil => rfl
  | cons b bs ih =>
    simp only [List.flatMap_cons, List.countP_append, ih, countWrite_batchOps]

theorem trainSteps_rankNZ (cfg : Config) (fw : FW) (rank : Nat) (valid : List Batch)
    (hr : rank ≠ 0) :
    ∀ (bs : List Batch) (st : LoopState), ∃ st' : LoopState,
      trainSteps cfg fw rank valid st bs = Except.ok (st', bs.flatMap batchOps)
  | [], st => ⟨st, rfl⟩
  | b :: bs, st => by
    obtain ⟨st', h⟩ := trainSteps_rankNZ cfg fw rank valid hr bs
      ⟨st.step + 1, st.total_time + fw.durAt (st.step + 1)⟩
    exact ⟨st', by
      simp only [trainSteps, trainStep_rankNZ cfg fw rank valid st b hr, h,
        List.flatMap_cons]⟩

theorem trainEpochsFrom_rankNZ (cfg : Config) (fw : FW) (rank : Nat)
    (train valid : List Batch) (hr : rank ≠ 0) :
    ∀ (rem epoch : Nat) (st : LoopState), ∃ (st' : LoopState) (evs : List Ev),
      trainEpochsFrom cfg fw rank train valid epoch rem st = Except.ok (st', evs) ∧
      countEval evs = 0 ∧ evs.countP isWrite = 0
  | 0, epoch, st => ⟨st, [], rfl, rfl, rfl⟩
  | rem + 1, epoch, st => by
    obtain ⟨st1, h1⟩ := trainSteps_rankNZ cfg fw rank valid hr train st
    obtain ⟨st2, evs2, h2, hc2, hw2⟩ :=
      trainEpochsFrom_rankNZ cfg fw rank train valid hr rem (epoch + 1) st1
    refine ⟨st2, train.flatMap batchOps ++ evs2, ?_, ?_, ?_⟩
    · simp only [trainEpochsFrom, if_neg hr, h1, h2, List.nil_append]
    · rw [countEval_append, countEval_batchOpsStream, hc2]
    · rw [List.countP_append, countWrite_batchOpsStream, hw2]

/-!  ### C3: per-batch operation order -/

theorem gradOps_not_mem_tail (cfg : Config) (fw : FW) (valid : List Batch)
    (st : LoopState) (s : Nat) :
    Ev.backward ∉ (logEvsAt cfg fw st ++ saveEvsAt cfg fw valid s) ∧
    Ev.optStep ∉ (logEvsAt cfg fw st ++ saveEvsAt cfg fw valid s) ∧
    Ev.lrStep ∉ (logEvsAt cfg fw st ++ saveEvsAt cfg fw valid s) ∧
    Ev.clearGrad ∉ (logEvsAt cfg fw st ++ saveEvsAt cfg fw valid s) := by
  refine ⟨?_, ?_, ?_, ?_⟩ <;>
  · intro hmem
    rcases List.mem_append.mp hmem with h | h
    · rw [logEvsAt] at h
      split at h <;> simp at h
    · rw [saveEvsAt] at h
      split at h
      · rcases List.mem_append.mp h with h1 | h2
        · simp [evalEvsOk, List.mem_flatMap, evalBatchEvents] at h1
        · simp [savePaths] at h2
      · simp at h

/-- C3.  For every batch processed by the training loop, the per-batch
operations occur in this strict order: unpack the 6-tuple; model forward on
(token ids, type ids, position ids, generation mask, target positions);
cross-entropy against the target labels with the default mean reduction;
backward; optimizer step; learning-rate schedule step; gradient clearing —
and none of backward / optimizer step / schedule step / gradient clearing
recurs in the remainder of the iteration, so the schedule step follows the
optimizer step, clearing follows both, and the next iteration's forward
starts from the zero-gradient state left by `clear_grad`. -/
theorem train_batch_order (cfg : Config) (fw : FW) (valid : List Batch)
    (st : LoopState) (b : Batch)
    (hk : cfg.logging_steps ≠ 0) (hm : cfg.save_steps ≠ 0)
    (hT : totalTokens valid ≠ 0) :
    (trainStep cfg fw 0 valid st b = Except.ok (stepNext cfg fw st,
      [Ev.forward (b.token_ids, b.type_ids, b.pos_ids, b.generation_mask, b.tgt_pos),
       Ev.crossEntropy b.tgt_label Reduction.mean,
       Ev.backward, Ev.optStep, Ev.lrStep, Ev.clearGrad]
        ++ (logEvsAt cfg fw st ++ saveEvsAt cfg fw valid (st.step + 1)))) ∧
    (∀ rank : Nat, rank ≠ 0 →
      trainStep cfg fw rank valid st b = Except.ok
        (⟨st.step + 1, st.total_time + fw.durAt (st.step + 1)⟩,
         [Ev.forward (b.token_ids, b.type_ids, b.pos_ids, b.generation_mask, b.tgt_pos),
          Ev.crossEntropy b.tgt_label Reduction.mean,
          Ev.backward, Ev.optStep, Ev.lrStep, Ev.clearGrad])) ∧
    (∀ e : Ev, e ∈ logEvsAt cfg fw st ++ saveEvsAt cfg fw valid (st.step + 1) →
      e ≠ Ev.backward ∧ e ≠ Ev.optStep ∧ e ≠ Ev.lrStep ∧ e ≠ Ev.clearGrad) := by
  refine ⟨?_, ?_, ?_⟩
  · rw [trainStep_rank0 cfg fw valid st b hk hm hT, stepEvs0, List.append_assoc]
    rfl
  · exact fun rank hr => trainStep_rankNZ cfg fw rank valid st b hr
  · intro e he
    have h4 := gradOps_not_mem_tail cfg fw valid st (st.step + 1)
    exact ⟨fun h => h4.1 (h ▸ he), fun h => h4.2.1 (h ▸ he),
           fun h => h4.2.2.1 (h ▸ he), fun h => h4.2.2.2 (h ▸ he)⟩

/-- Witness for C3 at concrete inputs. -/
theorem train_batch_order_witness :
    demoCfg.logging_steps ≠ 0 ∧ demoCfg.save_steps ≠ 0 ∧
    totalTokens [demoValid] ≠ 0 ∧
    trainStep demoCfg demoFW 0 [demoValid] ⟨0, 0⟩ demoBatch =
      Except.ok (stepNext demoCfg demoFW ⟨0, 0⟩,
        [Ev.forward (demoBatch.token_ids, demoBatch.type_ids, demoBatch.pos_ids,
           demoBatch.generation_mask, demoBatch.tgt_pos),
         Ev.crossEntropy demoBatch.tgt_label Reduction.mean,
         Ev.backward, Ev.optStep, Ev.lrStep, Ev.clearGrad]
          ++ (logEvsAt demoCfg demoFW ⟨0, 0⟩
              ++ saveEvsAt demoCfg demoFW [demoValid] 1)) :=
  ⟨by decide, by decide, by decide,
   (train_batch_order demoCfg demoFW [demoValid] ⟨0, 0⟩ demoBatch
      (by decide) (by decide) (by decide)).1⟩

/-!  ### C4: checkpoint cadence -/

/-- C4.  On rank 0, a full evaluation of the validation stream followed
by a checkpoint named by the current global step occurs exactly on the
global steps divisible by `save_steps` and on no others, with the
evaluation's events strictly before the checkpoint writes; and for a
single-batch training stream with `epochs = 1`, `logging_steps = 1`,
`save_steps = 1`, exactly one checkpoint-triggering evaluation occurs. -/
theorem checkpoint_cadence (cfg : Config) (fw : FW) (valid : List Batch)
    (hk : cfg.logging_steps ≠ 0) (hm : cfg.save_steps ≠ 0)
    (hT : totalTokens valid ≠ 0) :
    -- (1) at a multiple of save_steps: the full evaluation run over the
    -- validation stream, then the two checkpoint writes named by the
    -- current step, in that order
    (∀ (st : LoopState) (b : Batch), (st.step + 1) % cfg.save_steps = 0 →
      trainStep cfg fw 0 valid st b = Except.ok (stepNext cfg fw st,
        batchOps b ++ logEvsAt cfg fw st
          ++ (evalEvsOk fw.fexp ⟨fw.evalSumLossAt (st.step + 1)⟩ valid
              ++ [Ev.saveFile (pathJoin cfg.save_dir (toString (st.step + 1) ++ ".pdparams")),
                  Ev.saveFile (pathJoin cfg.save_dir (toString (st.step + 1) ++ ".pdopt"))]))) ∧
    -- (2) at any other step: no evaluation and no checkpoint write
    (∀ (st : LoopState) (b : Batch), (st.step + 1) % cfg.save_steps ≠ 0 →
      trainStep cfg fw 0 valid st b
        = Except.ok (stepNext cfg fw st, batchOps b ++ logEvsAt cfg fw st) ∧
      countEval (batchOps b ++ logEvsAt cfg fw st) = 0 ∧
      (batchOps b ++ logEvsAt cfg fw st).countP isSaveFile = 0) ∧
    -- (3) over a whole rank-0 run of N = epochs * |train| steps: exactly one
    -- evaluation and exactly two checkpoint-file writes per multiple of
    -- save_steps among the global steps 1..N
    (∀ (train : List Batch) (st' : LoopState) (evs : List Ev),
      mainTrainLoop cfg fw 0 train valid = Except.ok (st', evs) →
      countEval evs = (List.range' 1 (cfg.epochs * train.length)).countP
          (fun s => s % cfg.save_steps == 0) ∧
      evs.countP isSaveFile = 2 * (List.range' 1 (cfg.epochs * train.length)).countP
          (fun s => s % cfg.save_steps == 0)) ∧
    -- (4) the single-batch scenario: one evaluation in the whole run
    (∀ (dir : String) (b : Batch) (st' : LoopState) (evs : List Ev),
      mainTrainLoop ⟨1, 1, 1, dir⟩ fw 0 [b] valid = Except.ok (st', evs) →
      countEval evs = 1) := by
  refine ⟨?_, ?_, ?_, ?_⟩
  · intro st b h
    rw [trainStep_rank0 cfg fw valid st b hk hm hT, stepEvs0, List.append_assoc,
      saveEvsAt, if_pos h, savePaths]
    rfl
  · intro st b h
    refine ⟨?_, ?_, ?_⟩
    · rw [trainStep_rank0 cfg fw valid st b hk hm hT, stepEvs0, saveEvsAt, if_neg h,
        List.append_nil]
    · rw [countEval_append, countEval_batchOps, countEval_logEvsAt]
    · rw [List.countP_append, countSave_batchOps, countSave_logEvsAt]
  · intro train st' evs hrun
    rw [mainTrainLoop_rank0 cfg fw train valid hk hm hT] at hrun
    have hevs : evs = epochsEvs cfg fw train valid 0 cfg.epochs ⟨0, 0⟩ :=
      ((Prod.mk.injEq _ _ _ _).mp (Except.ok.inj hrun)).2.symm
    subst hevs
    exact ⟨countEval_epochsEvs cfg fw train valid cfg.epochs 0 ⟨0, 0⟩,
           countSave_epochsEvs cfg fw train valid cfg.epochs 0 ⟨0, 0⟩⟩
  · intro dir b st' evs hrun
    rw [mainTrainLoop_rank0 ⟨1, 1, 1, dir⟩ fw [b] valid
      Nat.one_ne_zero Nat.one_ne_zero hT] at hrun
    have hevs : evs = epochsEvs ⟨1, 1, 1, dir⟩ fw [b] valid 0 1 ⟨0, 0⟩ :=
      ((Prod.mk.injEq _ _ _ _).mp (Except.ok.inj hrun)).2.symm
    subst hevs
    rw [countEval_epochsEvs ⟨1, 1, 1, dir⟩ fw [b] valid 1 0 ⟨0, 0⟩]
    show List.countP (fun s => s % 1 == 0) (List.range' 1 (1 * 1)) = 1
    decide

/-- Witness for C4 at concrete inputs: step 1 with `save_steps = 1` triggers
evaluation then the two checkpoint writes named `1`. -/
theorem checkpoint_cadence_witness :
    demoCfg.logging_steps ≠ 0 ∧ demoCfg.save_steps ≠ 0 ∧
    totalTokens [demoValid] ≠ 0 ∧ (0 + 1) % demoCfg.save_steps = 0 ∧
    trainStep demoCfg demoFW 0 [demoValid] ⟨0, 0⟩ demoBatch =
      Except.ok (stepNext demoCfg demoFW ⟨0, 0⟩,
        batchOps demoBatch ++ logEvsAt demoCfg demoFW ⟨0, 0⟩
          ++ (evalEvsOk demoFW.fexp ⟨demoFW.evalSumLossAt 1⟩ [demoValid]
              ++ [Ev.saveFile (pathJoin demoCfg.save_dir (toString 1 ++ ".pdparams")),
                  Ev.saveFile (pathJoin demoCfg.save_dir (toString 1 ++ ".pdopt"))])) :=
  ⟨by decide, by decide, by decide, by decide,
   (checkpoint_cadence demoCfg demoFW [demoValid]
      (by decide) (by decide) (by decide)).1 ⟨0, 0⟩ demoBatch (by decide)⟩

/-!  ### C5: logging cadence -/

/-- C5.  On rank 0 a log line is emitted exactly on the global steps
divisible by `logging_steps` and never on others; each log line reports the
step index, the loss at that step, perplexity `exp(loss)`, the current
learning rate, and the average wall-clock seconds per step over the
`logging_steps` steps since the previous log; and emitting a log line resets
the elapsed-time accumulator to zero. -/
theorem logging_cadence (cfg : Config) (fw : FW) (train valid : List Batch)
    (hk : cfg.logging_steps ≠ 0) (hm : cfg.save_steps ≠ 0)
    (hT : totalTokens valid ≠ 0) :
    (∀ (st' : LoopState) (evs : List Ev),
      mainTrainLoop cfg fw 0 train valid = Except.ok (st', evs) →
      -- (1) the log lines' steps are exactly the multiples of logging_steps
      -- among global steps 1..N, in order
      logSteps evs = (List.range' 1 (cfg.epochs * train.length)).filter
          (fun s => s % cfg.logging_steps == 0) ∧
      -- (2) each log line reports the step's loss, ppl = exp(loss), the lr,
      -- and the average duration of the logging_steps steps since last log
      (∀ r : LogRec, Ev.logLine r ∈ evs →
        r.loss = fw.lossAt r.step ∧ r.ppl = fw.fexp (fw.lossAt r.step) ∧
        r.lr = fw.lrAt r.step ∧
        ∃ a : Nat, r.step = (a + 1) * cfg.logging_steps ∧
          r.secsPerStep = ((List.range' (a * cfg.logging_steps + 1)
              cfg.logging_steps).map fw.durAt).sum / (cfg.logging_steps : ℚ))) ∧
    -- (3) a logging step resets the accumulator to zero and emits the log
    -- line computed from the accumulated time
    (∀ (st : LoopState) (b : Batch), (st.step + 1) % cfg.logging_steps = 0 →
      trainStep cfg fw 0 valid st b
        = Except.ok (⟨st.step + 1, 0⟩, stepEvs0 cfg fw valid st b) ∧
      Ev.logLine ⟨st.step + 1, fw.lossAt (st.step + 1), fw.fexp (fw.lossAt (st.step + 1)),
                  fw.lrAt (st.step + 1),
                  (st.total_time + fw.durAt (st.step + 1)) / (cfg.logging_steps : ℚ)⟩
        ∈ stepEvs0 cfg fw valid st b) ∧
    -- (4) a non-logging step emits no log line and accumulates the time
    (∀ (st : LoopState) (b : Batch), (st.step + 1) % cfg.logging_steps ≠ 0 →
      trainStep cfg fw 0 valid st b = Except.ok
        (⟨st.step + 1, st.total_time + fw.durAt (st.step + 1)⟩,
         stepEvs0 cfg fw valid st b) ∧
      logSteps (stepEvs0 cfg fw valid st b) = []) := by
  refine ⟨?_, ?_, ?_⟩
  · intro st' evs hrun
    rw [mainTrainLoop_rank0 cfg fw train valid hk hm hT] at hrun
    have hevs : evs = epochsEvs cfg fw train valid 0 cfg.epochs ⟨0, 0⟩ :=
      ((Prod.mk.injEq _ _ _ _).mp (Except.ok.inj hrun)).2.symm
    subst hevs
    refine ⟨logSteps_epochsEvs cfg fw train valid cfg.epochs 0 ⟨0, 0⟩, ?_⟩
    intro r hr
    obtain ⟨hmod, h1, hloss, hppl, hlr, hsecs⟩ :=
      logLine_mem_epochsEvs cfg fw train valid cfg.epochs 0 ⟨0, 0⟩ rfl r hr
    obtain ⟨a, ha, hsum⟩ := log_window cfg fw hk r.step h1 hmod
    exact ⟨hloss, hppl, hlr, a, ha, by rw [hsecs, hsum]⟩
  · intro st b h
    constructor
    · rw [trainStep_rank0 cfg fw valid st b hk hm hT]
      show Except.ok (stepNext cfg fw st, stepEvs0 cfg fw valid st b) = _
      rw [stepNext, if_pos h]
    · rw [stepEvs0]
      refine List.mem_append.mpr (Or.inl (List.mem_append.mpr (Or.inr ?_)))
      rw [logEvsAt, if_pos h]
      exact List.mem_singleton.mpr rfl
  · intro st b h
    constructor
    · rw [trainStep_rank0 cfg fw valid st b hk hm hT]
      show Except.ok (stepNext cfg fw st, stepEvs0 cfg fw valid st b) = _
      rw [stepNext, if_neg h]
    · rw [logSteps_stepEvs0, if_neg h]

/-- Witness for C5 at concrete inputs: step 1 with `logging_steps = 1` logs
and resets the accumulator. -/
theorem logging_cadence_witness :
    demoCfg.logging_steps ≠ 0 ∧ demoCfg.save_steps ≠ 0 ∧
    totalTokens [demoValid] ≠ 0 ∧ (0 + 1) % demoCfg.logging_steps = 0 ∧
    (trainStep demoCfg demoFW 0 [demoValid] ⟨0, 0⟩ demoBatch
      = Except.ok (⟨0 + 1, 0⟩, stepEvs0 demoCfg demoFW [demoValid] ⟨0, 0⟩ demoBatch) ∧
     Ev.logLine ⟨0 + 1, demoFW.lossAt (0 + 1), demoFW.fexp (demoFW.lossAt (0 + 1)),
                 demoFW.lrAt (0 + 1),
                 (0 + demoFW.durAt (0 + 1)) / (demoCfg.logging_steps : ℚ)⟩
       ∈ stepEvs0 demoCfg demoFW [demoValid] ⟨0, 0⟩ demoBatch) :=
  ⟨by decide, by decide, by decide, by decide,
   (logging_cadence demoCfg demoFW [demoBatch] [demoValid]
      (by decide) (by decide) (by decide)).2.1 ⟨0, 0⟩ demoBatch (by decide)⟩

/-!  ### C6: which ranks read the validation stream / perform writes -/

/-- C6 counterexample.  The claim says every rank reads the validation
stream during cadence-triggered evaluation.  In the code the `evaluation`
call sits inside the `if rank == 0` gate (lines 112-122): with
`save_steps = 1` and one training batch, the cadence evaluation does occur
(the rank-0 trace contains exactly one evaluation run over the validation
stream), but rank 1's whole-run trace is just the six batch operations —
it contains no `model.eval()` and never touches the validation stream. -/
theorem validation_read_rank_counterexample :
    mainTrainLoop demoCfg demoFW 1 [demoBatch] [demoValid]
        = Except.ok (⟨1, 1⟩, batchOps demoBatch) ∧
    countEval (batchOps demoBatch) = 0 ∧
    mainTrainLoop demoCfg demoFW 0 [demoBatch] [demoValid]
        = Except.ok (statesNext demoCfg demoFW ⟨0, 0⟩ 1,
            epochsEvs demoCfg demoFW [demoBatch] [demoValid] 0 1 ⟨0, 0⟩) ∧
    countEval (epochsEvs demoCfg demoFW [demoBatch] [demoValid] 0 1 ⟨0, 0⟩) = 1 := by
  refine ⟨?_, rfl, ?_, by decide⟩
  · show trainEpochsFrom demoCfg demoFW 1 [demoBatch] [demoValid] 0 1 ⟨0, 0⟩ = _
    simp only [trainEpochsFrom, trainSteps,
      trainStep_rankNZ demoCfg demoFW 1 [demoValid] ⟨0, 0⟩ demoBatch (by decide)]
    norm_num [demoFW]
  · exact mainTrainLoop_rank0 demoCfg demoFW [demoBatch] [demoValid]
      (by decide) (by decide) (by decide)

/-- C6 amended.  During cadence-triggered evaluation only rank 0 reads
the validation stream — non-coordinating ranks never run evaluation at all —
and only rank 0 performs writes (checkpoint files, log output, console
prints); a non-coordinating rank's trace contains no evaluation run and no
write event, while at a save step rank 0 runs the full evaluation over the
validation stream and then writes the checkpoint. -/
theorem rank_gate_spec (cfg : Config) (fw : FW) :
    (∀ rank : Nat, rank ≠ 0 → ∀ train valid : List Batch,
      ∃ (st' : LoopState) (evs : List Ev),
        mainTrainLoop cfg fw rank train valid = Except.ok (st', evs) ∧
        countEval evs = 0 ∧ evs.countP isWrite = 0) ∧
    (∀ (valid : List Batch) (st : LoopState) (b : Batch),
      cfg.logging_steps ≠ 0 → cfg.save_steps ≠ 0 → totalTokens valid ≠ 0 →
      (st.step + 1) % cfg.save_steps = 0 →
      trainStep cfg fw 0 valid st b = Except.ok (stepNext cfg fw st,
        batchOps b ++ logEvsAt cfg fw st
          ++ (evalEvsOk fw.fexp ⟨fw.evalSumLossAt (st.step + 1)⟩ valid
              ++ (savePaths cfg.save_dir (toString (st.step + 1))).map Ev.saveFile))) := by
  constructor
  · intro rank hr train valid
    exact trainEpochsFrom_rankNZ cfg fw rank train valid hr cfg.epochs 0 ⟨0, 0⟩
  · intro valid st b hk hm hT h
    rw [trainStep_rank0 cfg fw valid st b hk hm hT, stepEvs0, saveEvsAt, if_pos h]

/-- Witness for C6 amended: rank 1 on a concrete run performs no evaluation
and no write. -/
theorem rank_gate_spec_witness :
    (1 : Nat) ≠ 0 ∧
    (∃ (st' : LoopState) (evs : List Ev),
      mainTrainLoop demoCfg demoFW 1 [demoBatch] [demoValid] = Except.ok (st', evs) ∧
      countEval evs = 0 ∧ evs.countP isWrite = 0) :=
  ⟨by decide, (rank_gate_spec demoCfg demoFW).1 1 (by decide) [demoBatch] [demoValid]⟩

/-!  ### C9: perplexity is exp of the reported loss -/

/-- C9.  Every training log line and every evaluation summary reports a
perplexity equal to the exponential of the loss printed on that same line:
`ppl = exp(loss)` with the identical loss value. -/
theorem ppl_is_exp_of_loss (cfg : Config) (fw : FW) (train valid : List Batch)
    (hk : cfg.logging_steps ≠ 0) (hm : cfg.save_steps ≠ 0)
    (hT : totalTokens valid ≠ 0) :
    (∀ (st' : LoopState) (evs : List Ev),
      mainTrainLoop cfg fw 0 train valid = Except.ok (st', evs) →
      (∀ r : LogRec, Ev.logLine r ∈ evs → r.ppl = fw.fexp r.loss) ∧
      (∀ r : EvalRec, Ev.evalReport r ∈ evs → r.ppl = fw.fexp r.loss)) ∧
    (∀ (fexp : ℚ → ℚ) (m : EvalModel) (stream : List Batch)
        (r : EvalRec) (evs : List Ev),
      evaluation fexp m stream = Except.ok (r, evs) → r.ppl = fexp r.loss) := by
  constructor
  · intro st' evs hrun
    rw [mainTrainLoop_rank0 cfg fw train valid hk hm hT] at hrun
    have hevs : evs = epochsEvs cfg fw train valid 0 cfg.epochs ⟨0, 0⟩ :=
      ((Prod.mk.injEq _ _ _ _).mp (Except.ok.inj hrun)).2.symm
    subst hevs
    constructor
    · intro r hr
      obtain ⟨_, _, hloss, hppl, _, _⟩ :=
        logLine_mem_epochsEvs cfg fw train valid cfg.epochs 0 ⟨0, 0⟩ rfl r hr
      rw [hppl, hloss]
    · intro r hr
      exact evalReport_mem_epochsEvs cfg fw train valid cfg.epochs 0 ⟨0, 0⟩ r hr
  · intro fexp m stream r evs h
    rw [evaluation] at h
    split at h
    · exact absurd h (by simp)
    · have hr : r = ⟨totalLoss m stream / (totalTokens stream : ℚ),
          fexp (totalLoss m stream / (totalTokens stream : ℚ))⟩ :=
        ((Prod.mk.injEq _ _ _ _).mp (Except.ok.inj h)).1.symm
      rw [hr]

/-- Witness for C9: a concrete evaluation summary. -/
theorem ppl_is_exp_of_loss_witness :
    evaluation demoExp demoEvalModel [demoValid] =
      Except.ok (evalRec demoExp demoEvalModel [demoValid],
        evalEvsOk demoExp demoEvalModel [demoValid]) ∧
    (evalRec demoExp demoEvalModel [demoValid]).ppl =
      demoExp ((evalRec demoExp demoEvalModel [demoValid]).loss) :=
  ⟨evaluation_ok demoExp demoEvalModel [demoValid] (by decide),
   (ppl_is_exp_of_loss demoCfg demoFW [demoBatch] [demoValid]
      (by decide) (by decide) (by decide)).2 demoExp demoEvalModel [demoValid]
      (evalRec demoExp demoEvalModel [demoValid])
      (evalEvsOk demoExp demoEvalModel [demoValid])
      (evaluation_ok demoExp demoEvalModel [demoValid] (by decide))⟩
